import Mathlib

set_option maxHeartbeats 1000000

/-!
Shallow embedding of the console repository (src/execute.go, src/console.go).

The repository holds two Go source files:

* `src/execute.go` (package `gonsole`): the execution controller.  `execute`
  sets the `isExecuting` flag, defers its reset, invokes the external
  go-flags command parser on the token list, and classifies the error the
  parser returns (foreign error, help-requested, other structured error).

* `src/console.go` (package `console`): the session root.  It owns the menu
  registry (`map[string]*Menu`), the readline shell (whose history-source
  bindings the menus control), and the `SwitchMenu` / `activeMenu` /
  `NewMenu` / `SystemEditor` operations.

Machine-level aspects modelled explicitly: Go's `defer` runs on every exit
path of the surrounding function, including a panic raised by a callee;
Go map entries hold pointers, so mutating a looked-up `*Menu`'s field
mutates the registry entry in place (modelled as an update keyed by the
entry the pointer came from); Go's `[]rune(string(bytes))` and
`[]byte(string(runes))` conversions perform UTF-8 decoding (invalid input
replaced by U+FFFD, one byte consumed per invalid step) and encoding.
-/

/-- Kinds of the structured parser error (go-flags `flags.ErrorType`).  The
help-requested kind (`flags.ErrHelp`) is the only kind `execute` inspects;
every other kind is collapsed into `other` with a numeric code. -/
inductive FlagsErrorType where
  | errHelp
  | other (code : Nat)
  deriving DecidableEq, Repr

/-- A Go `error` interface value as returned by the command parser: either a
structured `*flags.Error` (carrying a kind and a display message, and whose
`Error()` method returns that message), or some foreign/opaque error type
for which the type assertion `err.(*flags.Error)` fails. -/
inductive GoError where
  | flagsErr (etype : FlagsErrorType) (message : String)
  | foreign (message : String)
  deriving DecidableEq, Repr

/-- The display text of an error (Go's `err.Error()`). -/
def GoError.errorText : GoError → String
  | .flagsErr _ msg => msg
  | .foreign msg => msg

/-- Outcome of one call to `c.parser.ParseArgs(args)`: either a normal
return carrying the (possibly partial) result and an optional error, or a
panic raised inside the parser. -/
inductive ParseOutcome where
  | ret (result : List String) (err : Option GoError)
  | panics (message : String)
  deriving DecidableEq, Repr

/-- Modelled from the spec: the fixed "parser error" label constant
`parserError` is referenced by src/execute.go:43 but its defining file is
not under src/; per the spec it is a fixed label prefixed to the parser's
error text. -/
def parserError : String := "parser error: "

/-- Observable events of one `execute` call, in temporal order: writes to
the `isExecuting` flag, the invocation of the command parser, lines printed
to the terminal, and invocations of the custom help path
(`c.handleHelpFlag(result)`). -/
inductive Event where
  | setFlag (b : Bool)
  | invokeParser (args : List String)
  | print (line : String)
  | invokeHelp (result : List String)
  deriving DecidableEq, Repr

/-- Whether an event is a write to the `isExecuting` flag. -/
def Event.isSetFlag : Event → Bool
  | .setFlag _ => true
  | _ => false

/-- Whether an event is a printed line. -/
def Event.isPrint : Event → Bool
  | .print _ => true
  | _ => false

/-- Whether an event is an invocation of the custom help path. -/
def Event.isInvokeHelp : Event → Bool
  | .invokeHelp _ => true
  | _ => false

namespace Gonsole

/-- The fields of package gonsole's `Console` that `execute` touches: the
`isExecuting` flag (src/execute.go:17-20).  The parser is passed separately
as an opaque collaborator. -/
structure Console where
  isExecuting : Bool
  deriving DecidableEq, Repr

/-- Result of one `execute` call: the final console state, the ordered
event trace, and whether the call terminated by propagating a panic. -/
structure ExecResult where
  console : Console
  events : List Event
  panicked : Bool
  deriving DecidableEq, Repr

/-- Embedding of `(*Console).execute` (src/execute.go:12-47).

The function sets `isExecuting = true`, defers its reset (so the reset runs
on every exit path, a panic in the parser included), calls
`c.parser.ParseArgs(args)`, and classifies the error: `nil` (done), a
foreign error type (silent return; the inner `if err == nil` at
src/execute.go:28-30 is unreachable inside the `err != nil` branch), a
structured error of kind `flags.ErrHelp` (custom help path on the partial
result), or any other structured error (print `parserError + err.Error()`). -/
def execute (c : Console) (parser : List String → ParseOutcome)
    (args : List String) : ExecResult :=
  let c1 : Console := { c with isExecuting := true }
  let pre : List Event := [.setFlag true, .invokeParser args]
  match parser args with
  | .panics _ =>
      { console := { c1 with isExecuting := false },
        events := pre ++ [.setFlag false],
        panicked := true }
  | .ret result err =>
      match err with
      | none =>
          { console := { c1 with isExecuting := false },
            events := pre ++ [.setFlag false],
            panicked := false }
      | some e =>
          match e with
          | .foreign _ =>
              { console := { c1 with isExecuting := false },
                events := pre ++ [.setFlag false],
                panicked := false }
          | .flagsErr etype msg =>
              if etype = .errHelp then
                { console := { c1 with isExecuting := false },
                  events := pre ++ [.invokeHelp result, .setFlag false],
                  panicked := false }
              else
                { console := { c1 with isExecuting := false },
                  events := pre ++ [.print (parserError ++ msg), .setFlag false],
                  panicked := false }

end Gonsole

/-- C1: for every token list passed to `execute`, `isExecuting` is false
after the call on every exit path (successful parse, help-requested error,
structured parse error, foreign error, panic inside the parser), and within
the call the flag is written true exactly once, before the parser is
invoked, and written false exactly once. -/
theorem execute_isExecuting_lifecycle (c : Gonsole.Console)
    (parser : List String → ParseOutcome) (args : List String) :
    (Gonsole.execute c parser args).console.isExecuting = false
    ∧ ((Gonsole.execute c parser args).events.filter Event.isSetFlag)
        = [Event.setFlag true, Event.setFlag false]
    ∧ (Gonsole.execute c parser args).events.take 2
        = [Event.setFlag true, Event.invokeParser args] := by
  cases hp : parser args with
  | panics m =>
      simp [Gonsole.execute, hp, Event.isSetFlag]
  | ret result err =>
      cases err with
      | none => simp [Gonsole.execute, hp, Event.isSetFlag]
      | some e =>
          cases e with
          | foreign m => simp [Gonsole.execute, hp, Event.isSetFlag]
          | flagsErr etype msg =>
              by_cases ht : etype = FlagsErrorType.errHelp <;>
                simp [Gonsole.execute, hp, ht, Event.isSetFlag]

/-- C2: when the parser returns an error that is not a structured parser
error (a foreign/opaque error type), `execute` prints nothing, invokes no
help path, performs no action at all beyond the flag management and the
parser call itself (so the error stays untouched in the channel the parser
returned it through), and the only state change is `isExecuting := false`. -/
theorem execute_foreign_error_silent (c : Gonsole.Console)
    (parser : List String → ParseOutcome) (args result : List String)
    (msg : String)
    (h : parser args = .ret result (some (.foreign msg))) :
    (Gonsole.execute c parser args).events
        = [Event.setFlag true, Event.invokeParser args, Event.setFlag false]
    ∧ (Gonsole.execute c parser args).console = { c with isExecuting := false }
    ∧ (Gonsole.execute c parser args).events.filter Event.isPrint = [] := by
  simp [Gonsole.execute, h, Event.isPrint]

/-- Witness for C2 at a concrete parser that returns a foreign error. -/
theorem execute_foreign_error_silent_witness :
    (fun (_ : List String) => ParseOutcome.ret [] (some (.foreign "boom"))) ["x"]
        = ParseOutcome.ret [] (some (.foreign "boom"))
    ∧ (Gonsole.execute ⟨false⟩
        (fun _ => ParseOutcome.ret [] (some (.foreign "boom"))) ["x"]).events
        = [Event.setFlag true, Event.invokeParser ["x"], Event.setFlag false] :=
  ⟨rfl, (execute_foreign_error_silent ⟨false⟩
      (fun _ => ParseOutcome.ret [] (some (.foreign "boom"))) ["x"] [] "boom" rfl).1⟩

/-- C3: when the parser returns a structured error of kind help-requested,
`execute` produces no printed output at all (in particular nothing carrying
the "parser error" label) and instead invokes the custom help path with the
partially-parsed result; the full event trace is exactly flag set, parser
call, help invocation, flag reset. -/
theorem execute_help_requested (c : Gonsole.Console)
    (parser : List String → ParseOutcome) (args result : List String)
    (msg : String)
    (h : parser args = .ret result (some (.flagsErr .errHelp msg))) :
    (Gonsole.execute c parser args).events
        = [Event.setFlag true, Event.invokeParser args,
            Event.invokeHelp result, Event.setFlag false]
    ∧ (Gonsole.execute c parser args).events.filter Event.isPrint = []
    ∧ Event.invokeHelp result ∈ (Gonsole.execute c parser args).events := by
  simp [Gonsole.execute, h, Event.isPrint]

/-- Witness for C3 at a concrete parser that classifies `--help` as a
help request. -/
theorem execute_help_requested_witness :
    (fun (_ : List String) =>
        ParseOutcome.ret ["partial"] (some (.flagsErr .errHelp "help"))) ["--help"]
        = ParseOutcome.ret ["partial"] (some (.flagsErr .errHelp "help"))
    ∧ (Gonsole.execute ⟨false⟩
        (fun _ => ParseOutcome.ret ["partial"] (some (.flagsErr .errHelp "help")))
        ["--help"]).events
        = [Event.setFlag true, Event.invokeParser ["--help"],
            Event.invokeHelp ["partial"], Event.setFlag false] :=
  ⟨rfl, (execute_help_requested ⟨false⟩
      (fun _ => ParseOutcome.ret ["partial"] (some (.flagsErr .errHelp "help")))
      ["--help"] ["partial"] "help" rfl).1⟩

/-- C4: when the parser returns a structured error whose kind is not
help-requested, `execute` prints exactly one line, the fixed `parserError`
label concatenated with the error's display text, and returns. -/
theorem execute_parser_error_printed (c : Gonsole.Console)
    (parser : List String → ParseOutcome) (args result : List String)
    (etype : FlagsErrorType) (msg : String)
    (ht : etype ≠ .errHelp)
    (h : parser args = .ret result (some (.flagsErr etype msg))) :
    (Gonsole.execute c parser args).events
        = [Event.setFlag true, Event.invokeParser args,
            Event.print (parserError ++ msg), Event.setFlag false]
    ∧ (Gonsole.execute c parser args).events.filter Event.isPrint
        = [Event.print (parserError ++ msg)] := by
  simp [Gonsole.execute, h, ht, Event.isPrint]

/-- Witness for C4 at a concrete parser that returns an unknown-command
structured error. -/
theorem execute_parser_error_printed_witness :
    (FlagsErrorType.other 0 ≠ FlagsErrorType.errHelp)
    ∧ (Gonsole.execute ⟨false⟩
        (fun _ => ParseOutcome.ret []
            (some (.flagsErr (.other 0) "unknown command"))) ["badcmd"]).events
        = [Event.setFlag true, Event.invokeParser ["badcmd"],
            Event.print (parserError ++ "unknown command"), Event.setFlag false] :=
  ⟨by decide, (execute_parser_error_printed ⟨false⟩
      (fun _ => ParseOutcome.ret [] (some (.flagsErr (.other 0) "unknown command")))
      ["badcmd"] [] (.other 0) "unknown command" (by decide) rfl).1⟩

/-! Model of package `console` (src/console.go): menu registry and shell. -/

/-- Association-list lookup modelling Go map indexing (`c.menus[name]`,
`target.histories[name]`); `none` models Go's zero value for a missing key. -/
def assocLookup {β : Type} : List (String × β) → String → Option β
  | [], _ => none
  | (k', v) :: rest, k => if k' = k then some v else assocLookup rest k

/-- The fields of `Menu` that src/console.go reads or writes: its name, the
`active` flag, the ordered `historyNames`, and the `histories` map (handles
modelled as `Nat`). -/
structure Menu where
  name : String
  active : Bool
  historyNames : List String
  histories : List (String × Nat)
  deriving DecidableEq, Repr

/-- The readline shell state the console manipulates: the ordered history
source bindings (`shell.History`).  A binding's handle is `Option Nat`
because `target.histories[name]` yields Go's nil zero value when absent. -/
structure Shell where
  historySources : List (String × Option Nat)
  deriving DecidableEq, Repr

/-- The history subsystem's `Add` (bind one more source, at the end). -/
def Shell.historyAdd (s : Shell) (name : String) (src : Option Nat) : Shell :=
  { s with historySources := s.historySources ++ [(name, src)] }

/-- The history subsystem's `Delete()` with no arguments: unbind all sources
(src/console.go:159). -/
def Shell.historyDelete (_ : Shell) : Shell := { historySources := [] }

/-- The fields of package console's `Console` that the modelled operations
touch: the menu registry (insertion-ordered association list standing for
Go's `map[string]*Menu`), the shell, and the `isExecuting` flag.  Hook
lists, the logo printer and the filters are never read or written by the
operations modelled here. -/
structure Console where
  menus : List (String × Menu)
  shell : Shell
  isExecuting : Bool
  deriving DecidableEq, Repr

/-- Modelled from the spec: `newMenu` (menu.go) is not under src/.  Per the
spec's data model a Menu is created carrying its name, inactive, with its
history-source containers empty (the spec does not specify any initial
sources). -/
def newMenu (name : String) : Menu :=
  { name := name, active := false, historyNames := [], histories := [] }

/-- Go map insertion: replaces the entry under an existing key outright,
otherwise appends a new entry. -/
def mapInsert {β : Type} : List (String × β) → String → β → List (String × β)
  | [], k, v => [(k, v)]
  | (k', v') :: rest, k, v =>
      if k' = k then (k, v) :: rest else (k', v') :: mapInsert rest k v

/-- Embedding of `(*Console).NewMenu` (src/console.go:114-121): create a
fresh menu and register it under its name (replacing any previous entry). -/
def Console.NewMenu (c : Console) (name : String) : Console × Menu :=
  let menu := newMenu name
  ({ c with menus := mapInsert c.menus name menu }, menu)

/-- In-place update of the `active` field of the registry entry (or entries)
under a key, modelling `somePtr.active = b` where the pointer was obtained
from the map at that key. -/
def setActiveAt : List (String × Menu) → String → Bool → List (String × Menu)
  | [], _, _ => []
  | (k', v) :: rest, k, b =>
      if k' = k then (k', { v with active := b }) :: setActiveAt rest k b
      else (k', v) :: setActiveAt rest k b

/-- Embedding of `(*Console).activeMenu` (src/console.go:197-206): scan the
registry for an active menu; if none, fall back to the entry under the
empty name (`none` models a nil result).  Go map iteration order is
unspecified; the model scans in registration order, which is only
observable when more than one menu is active. -/
def Console.activeMenu (c : Console) : Option Menu :=
  match c.menus.find? (fun p => p.2.active) with
  | some p => some p.2
  | none => assocLookup c.menus ""

/-- The first half of the switch in `SwitchMenu` (src/console.go:150-153):
`current := c.activeMenu(); if current != nil { current.active = false }`.
The pointer returned by `activeMenu` designates either the first active
registry entry or the entry under the empty name, so the flag write lands
on that entry; when `activeMenu` is nil nothing is written. -/
def deactivateCurrent (c : Console) : List (String × Menu) :=
  match c.menus.find? (fun p => p.2.active) with
  | some p => setActiveAt c.menus p.1 false
  | none =>
      match assocLookup c.menus "" with
      | some _ => setActiveAt c.menus "" false
      | none => c.menus

/-- Embedding of `(*Console).SwitchMenu` (src/console.go:144-165).  If the
target name is absent the call does nothing (registry entries are never nil
in this model, so `found && target != nil` reduces to `found`).  Otherwise
the current active menu (the result of `activeMenu`, a pointer into the
registry) has its flag cleared, the target's flag is set, all history
sources are unbound, and the target's `historyNames` are bound in their
stored order with their handles from `target.histories`. -/
def Console.SwitchMenu (c : Console) (menu : String) : Console :=
  match assocLookup c.menus menu with
  | none => c
  | some target =>
      let menus2 := setActiveAt (deactivateCurrent c) menu true
      let shell2 := target.historyNames.foldl
        (fun s n => s.historyAdd n (assocLookup target.histories n))
        c.shell.historyDelete
      { c with menus := menus2, shell := shell2 }

/-- Embedding of `New` (src/console.go:71-97): fresh console with an empty
registry and no bound history sources, then a default menu registered under
the empty name, marked active through the returned pointer, and its history
sources bound.  The `app` parameter only namespaces the shell's persisted
configuration, which is outside the modelled state. -/
def Console.New (app : String) : Console :=
  let c0 : Console :=
    { menus := [], shell := { historySources := [] }, isExecuting := false }
  let created := c0.NewMenu ""
  let defaultMenu := { created.2 with active := true }
  let c1 := { created.1 with menus := setActiveAt created.1.menus "" true }
  let _ := app
  { c1 with
    shell := defaultMenu.historyNames.foldl
      (fun s n => s.historyAdd n (assocLookup defaultMenu.histories n))
      c1.shell }

/-- Number of registry entries whose menu is marked active. -/
def countActive (l : List (String × Menu)) : Nat :=
  (l.filter (fun p => p.2.active)).length

/-! Helper lemmas about the registry model. -/

/-- A successful lookup exhibits a registry entry. -/
theorem assocLookup_mem {β : Type} {l : List (String × β)} {k : String} {v : β}
    (h : assocLookup l k = some v) : (k, v) ∈ l := by
  induction l with
  | nil => simp [assocLookup] at h
  | cons p rest ih =>
      obtain ⟨k', v'⟩ := p
      by_cases hk : k' = k
      · subst hk
        simp [assocLookup] at h
        simp [h]
      · simp [assocLookup, hk] at h
        exact List.mem_cons_of_mem _ (ih h)

/-- Two members of a list of length at most one are equal. -/
theorem mem_eq_of_length_le_one {α : Type} {l : List α} (h : l.length ≤ 1)
    {a b : α} (ha : a ∈ l) (hb : b ∈ l) : a = b := by
  match l with
  | [] => cases ha
  | [x] =>
      rw [List.mem_singleton] at ha hb
      rw [ha, hb]
  | x :: y :: rest => simp at h

/-- With at most one active entry, two active entries coincide. -/
theorem active_entry_unique {l : List (String × Menu)}
    (hone : countActive l ≤ 1) {p q : String × Menu}
    (hp : p ∈ l) (hq : q ∈ l) (hpa : p.2.active = true)
    (hqa : q.2.active = true) : p = q := by
  have hp' : p ∈ l.filter (fun p => p.2.active) := by
    rw [List.mem_filter]; exact ⟨hp, hpa⟩
  have hq' : q ∈ l.filter (fun p => p.2.active) := by
    rw [List.mem_filter]; exact ⟨hq, hqa⟩
  exact mem_eq_of_length_le_one hone hp' hq'

/-- Record eta for `Menu`: updating `active` to its current value is the
identity. -/
theorem menu_set_active_self {m : Menu} {b : Bool} (h : m.active = b) :
    { m with active := b } = m := by
  cases m
  simp at h
  simp [h]

/-- Looking up the updated key after `setActiveAt`. -/
theorem assocLookup_setActiveAt_self (l : List (String × Menu)) (k : String)
    (b : Bool) :
    assocLookup (setActiveAt l k b) k
      = (assocLookup l k).map (fun m => { m with active := b }) := by
  induction l with
  | nil => rfl
  | cons p rest ih =>
      obtain ⟨k', v⟩ := p
      by_cases hk : k' = k
      · subst hk
        simp [setActiveAt, assocLookup]
      · simp [setActiveAt, assocLookup, hk]
        exact ih

/-- Looking up a different key after `setActiveAt`. -/
theorem assocLookup_setActiveAt_ne (l : List (String × Menu)) {k k' : String}
    (h : k ≠ k') (b : Bool) :
    assocLookup (setActiveAt l k b) k' = assocLookup l k' := by
  induction l with
  | nil => rfl
  | cons p rest ih =>
      obtain ⟨k0, v⟩ := p
      by_cases hk : k0 = k
      · subst hk
        simp [setActiveAt, assocLookup, h]
        exact ih
      · by_cases hk' : k0 = k'
        · subst hk'
          simp [setActiveAt, assocLookup, hk]
        · simp [setActiveAt, assocLookup, hk, hk']
          exact ih

/-- `setActiveAt` on a key absent from the registry is the identity. -/
theorem setActiveAt_not_mem {l : List (String × Menu)} {k : String}
    (h : ¬ k ∈ l.map Prod.fst) (b : Bool) : setActiveAt l k b = l := by
  induction l with
  | nil => rfl
  | cons p rest ih =>
      obtain ⟨k', v⟩ := p
      rw [List.map_cons, List.mem_cons] at h
      push_neg at h
      have hk : ¬ k' = k := fun hc => h.1 hc.symm
      simp [setActiveAt, hk]
      exact ih h.2

/-- If the registry keys are duplicate-free and the entry under `k` already
has `active = b`, then `setActiveAt` is the identity. -/
theorem setActiveAt_eq_self {l : List (String × Menu)} {k : String} {m : Menu}
    {b : Bool} (hnd : (l.map Prod.fst).Nodup)
    (h : assocLookup l k = some m) (hb : m.active = b) :
    setActiveAt l k b = l := by
  induction l with
  | nil => rfl
  | cons p rest ih =>
      obtain ⟨k', v⟩ := p
      rw [List.map_cons, List.nodup_cons] at hnd
      by_cases hk : k' = k
      · subst hk
        simp [assocLookup] at h
        subst h
        simp [setActiveAt, menu_set_active_self hb,
          setActiveAt_not_mem hnd.1 b]
      · simp [assocLookup, hk] at h
        simp [setActiveAt, hk]
        exact ih hnd.2 h

/-- Applying `setActiveAt` twice at one key keeps only the second write. -/
theorem setActiveAt_setActiveAt (l : List (String × Menu)) (k : String)
    (b1 b2 : Bool) :
    setActiveAt (setActiveAt l k b1) k b2 = setActiveAt l k b2 := by
  induction l with
  | nil => rfl
  | cons p rest ih =>
      obtain ⟨k', v⟩ := p
      by_cases hk : k' = k
      · subst hk
        simp [setActiveAt]
        exact ih
      · simp [setActiveAt, hk]
        exact ih

/-- The keys of the registry are unchanged by `setActiveAt`. -/
theorem map_fst_setActiveAt (l : List (String × Menu)) (k : String) (b : Bool) :
    (setActiveAt l k b).map Prod.fst = l.map Prod.fst := by
  induction l with
  | nil => rfl
  | cons p rest ih =>
      obtain ⟨k', v⟩ := p
      by_cases hk : k' = k <;> simp [setActiveAt, hk] <;> exact ih

/-- Folding the history-bind loop of `SwitchMenu` appends exactly the
menu's named sources, in stored order. -/
theorem foldl_historyAdd (names : List String) (hist : List (String × Nat))
    (init : List (String × Option Nat)) :
    names.foldl (fun s n => s.historyAdd n (assocLookup hist n)) (Shell.mk init)
      = Shell.mk (init ++ names.map (fun n => (n, assocLookup hist n))) := by
  induction names generalizing init with
  | nil => simp
  | cons n rest ih =>
      rw [List.foldl_cons]
      have hstep : Shell.historyAdd (Shell.mk init) n (assocLookup hist n)
          = Shell.mk (init ++ [(n, assocLookup hist n)]) := rfl
      rw [hstep, ih]
      simp

/-- If no registry entry is active, every member is inactive. -/
theorem find?_active_none {l : List (String × Menu)}
    (h : l.find? (fun p => p.2.active) = none) {q : String × Menu}
    (hq : q ∈ l) : q.2.active = false := by
  cases hact : q.2.active
  · rfl
  · exfalso
    have hne := List.find?_eq_none.mp h q hq
    simp [hact] at hne

/-- Deactivating the current menu sends every looked-up entry to its
inactive version: the unique active entry is written, and an inactive entry
is unchanged (so equal to its own inactive version). -/
theorem assocLookup_deactivateCurrent {c : Console}
    (hone : countActive c.menus ≤ 1) {k : String} {m : Menu}
    (hm : assocLookup c.menus k = some m) :
    assocLookup (deactivateCurrent c) k = some { m with active := false } := by
  unfold deactivateCurrent
  split
  · rename_i p hfind
    have hpa : p.2.active = true := by simpa using List.find?_some hfind
    have hpm : p ∈ c.menus := List.mem_of_find?_eq_some hfind
    by_cases hpk : p.1 = k
    · rw [hpk, assocLookup_setActiveAt_self, hm]
      rfl
    · rw [assocLookup_setActiveAt_ne _ hpk, hm]
      by_cases hma : m.active = true
      · exfalso
        have hpq : p = (k, m) :=
          active_entry_unique hone hpm (assocLookup_mem hm) hpa hma
        exact hpk (by rw [hpq])
      · have hma' : m.active = false := by simpa using hma
        rw [menu_set_active_self hma']
  · rename_i hfind
    have hma : m.active = false := find?_active_none hfind (assocLookup_mem hm)
    split
    · rename_i d h0
      by_cases h0k : ("" : String) = k
      · rw [h0k, assocLookup_setActiveAt_self, hm]
        rfl
      · rw [assocLookup_setActiveAt_ne _ h0k, hm, menu_set_active_self hma]
    · rw [hm, menu_set_active_self hma]

/-- Unfolding `SwitchMenu` when the target name is registered: the registry
becomes the deactivated registry with the target's flag set, and the shell's
bindings become exactly the target's named sources in stored order. -/
theorem SwitchMenu_found_eq (c : Console) (name : String) (target : Menu)
    (hfound : assocLookup c.menus name = some target) :
    c.SwitchMenu name = { c with
      menus := setActiveAt (deactivateCurrent c) name true,
      shell := Shell.mk (target.historyNames.map
        (fun n => (n, assocLookup target.histories n))) } := by
  simp only [Console.SwitchMenu, hfound]
  rw [show c.shell.historyDelete = Shell.mk [] from rfl, foldl_historyAdd]
  simp

/-- C5: switching to a name absent from the menu registry is a complete
no-op: the registry, every menu's active flag, the history bindings and the
whole console state are exactly as before, and the operation has no output
or error path at all in the source. -/
theorem SwitchMenu_absent_noop (c : Console) (name : String)
    (h : assocLookup c.menus name = none) : c.SwitchMenu name = c := by
  simp [Console.SwitchMenu, h]

/-- Witness for C5 on a freshly constructed console and an unregistered
name. -/
theorem SwitchMenu_absent_noop_witness :
    assocLookup (Console.New "app").menus "nonexistent" = none
    ∧ (Console.New "app").SwitchMenu "nonexistent" = Console.New "app" :=
  ⟨by decide, SwitchMenu_absent_noop (Console.New "app") "nonexistent" (by decide)⟩

/-- C6: switching to a registered name (in any state with at most one
active menu, the reachable situation) ends with the history bindings being
exactly the target's `historyNames` in stored order with their handles, the
target menu marked active, and every other menu inactive (the previously
active one having been marked inactive, the rest untouched since they were
already inactive). -/
theorem SwitchMenu_found_spec (c : Console) (name : String) (target : Menu)
    (hfound : assocLookup c.menus name = some target)
    (hone : countActive c.menus ≤ 1) :
    (c.SwitchMenu name).shell.historySources
        = target.historyNames.map (fun n => (n, assocLookup target.histories n))
    ∧ assocLookup (c.SwitchMenu name).menus name
        = some { target with active := true }
    ∧ ∀ k m, k ≠ name → assocLookup c.menus k = some m →
        assocLookup (c.SwitchMenu name).menus k
          = some { m with active := false } := by
  have heq := SwitchMenu_found_eq c name target hfound
  refine ⟨?_, ?_, ?_⟩
  · simp [heq]
  · simp only [heq]
    rw [assocLookup_setActiveAt_self, assocLookup_deactivateCurrent hone hfound]
    rfl
  · intro k m hk hm
    simp only [heq]
    rw [assocLookup_setActiveAt_ne _ (Ne.symm hk),
      assocLookup_deactivateCurrent hone hm]

/-- Witness console for C6: default menu with source "main" bound, a menu
"sub" with source "alt" registered. -/
def switchScenarioConsole : Console :=
  { menus := [("", ⟨"", true, ["main"], [("main", 1)]⟩),
      ("sub", ⟨"sub", false, ["alt"], [("alt", 2)]⟩)],
    shell := { historySources := [("main", some 1)] },
    isExecuting := false }

/-- Witness for C6 on the spec's scenario: after switching to "sub" the
bindings contain only "alt" and "sub" is the active menu. -/
theorem SwitchMenu_found_spec_witness :
    countActive switchScenarioConsole.menus ≤ 1
    ∧ (switchScenarioConsole.SwitchMenu "sub").shell.historySources
        = [("alt", some 2)] := by
  have h := SwitchMenu_found_spec switchScenarioConsole "sub"
    ⟨"sub", false, ["alt"], [("alt", 2)]⟩ (by decide) (by decide)
  exact ⟨by decide, by rw [h.1]; decide⟩

/-- Counterexample console for C7: the active menu's stored sources are
["a"] but the line reader currently has a different source "b" bound. -/
def mixedBindingsConsole : Console :=
  { menus := [("", ⟨"", true, ["a"], [("a", 1)]⟩)],
    shell := { historySources := [("b", some 2)] },
    isExecuting := false }

/-- Counterexample to C7 as stated: in a session state whose history
bindings differ from the active menu's stored sources, switching to the
active menu's own name rebinds the stored sources and therefore changes the
history bindings. -/
theorem SwitchMenu_self_not_id_cex :
    Console.activeMenu mixedBindingsConsole
        = some ⟨"", true, ["a"], [("a", 1)]⟩
    ∧ (mixedBindingsConsole.SwitchMenu "").shell.historySources
        ≠ mixedBindingsConsole.shell.historySources := by decide

/-- C7 (amended): with duplicate-free keys, at most one active menu, the
name naming the explicitly active menu itself, and history bindings that
already equal that menu's stored sources (as holds after construction and
after every switch), switching to the active menu's name is the identity on
the whole console: no flag changes and no duplicate bindings. -/
theorem SwitchMenu_self_id (c : Console) (m : Menu)
    (hnd : (c.menus.map Prod.fst).Nodup)
    (hone : countActive c.menus ≤ 1)
    (hfound : assocLookup c.menus m.name = some m)
    (hact : m.active = true)
    (hbind : c.shell.historySources
        = m.historyNames.map (fun n => (n, assocLookup m.histories n))) :
    c.SwitchMenu m.name = c := by
  have heq := SwitchMenu_found_eq c m.name m hfound
  have hmem : (m.name, m) ∈ c.menus := assocLookup_mem hfound
  have hdeact : deactivateCurrent c = setActiveAt c.menus m.name false := by
    unfold deactivateCurrent
    split
    · rename_i p hfind
      have hpa : p.2.active = true := by simpa using List.find?_some hfind
      have hpm : p ∈ c.menus := List.mem_of_find?_eq_some hfind
      have hpq : p = (m.name, m) := active_entry_unique hone hpm hmem hpa hact
      rw [hpq]
    · rename_i hfind
      exfalso
      have := find?_active_none hfind hmem
      simp [hact] at this
  rw [heq, hdeact, setActiveAt_setActiveAt, setActiveAt_eq_self hnd hfound hact,
    ← hbind]

/-- Witness console for C7's amended idempotence: bindings equal the active
menu's stored sources. -/
def cleanBindingsConsole : Console :=
  { menus := [("", ⟨"", true, ["a"], [("a", 1)]⟩)],
    shell := { historySources := [("a", some 1)] },
    isExecuting := false }

/-- Witness for the amended C7 at a concrete console whose bindings match
the active menu's sources. -/
theorem SwitchMenu_self_id_witness :
    (cleanBindingsConsole.menus.map Prod.fst).Nodup
    ∧ countActive cleanBindingsConsole.menus ≤ 1
    ∧ cleanBindingsConsole.SwitchMenu "" = cleanBindingsConsole :=
  ⟨by decide, by decide,
    SwitchMenu_self_id cleanBindingsConsole ⟨"", true, ["a"], [("a", 1)]⟩
      (by decide) (by decide) (by decide) (by decide) (by decide)⟩

/-! Reachability invariant for the menu registry (C8). -/

/-- Splitting `countActive` over a cons cell. -/
theorem countActive_cons (p : String × Menu) (l : List (String × Menu)) :
    countActive (p :: l)
      = (if p.2.active = true then 1 else 0) + countActive l := by
  by_cases h : p.2.active = true
  · simp [countActive, List.filter_cons, h, Nat.add_comm]
  · simp [countActive, List.filter_cons, h]

/-- A registry whose members are all inactive has no active entries. -/
theorem countActive_eq_zero {l : List (String × Menu)}
    (h : ∀ q ∈ l, q.2.active = false) : countActive l = 0 := by
  induction l with
  | nil => rfl
  | cons p rest ih =>
      rw [countActive_cons, h p (List.mem_cons_self p rest)]
      simp [ih fun q hq => h q (List.mem_cons_of_mem p hq)]

/-- A key present after `mapInsert` was the inserted key or already present. -/
theorem mem_map_fst_mapInsert {β : Type} {l : List (String × β)} {k x : String}
    {v : β} (h : x ∈ (mapInsert l k v).map Prod.fst) :
    x = k ∨ x ∈ l.map Prod.fst := by
  induction l with
  | nil => simpa [mapInsert] using h
  | cons p rest ih =>
      obtain ⟨k', v'⟩ := p
      by_cases hk : k' = k
      · subst hk
        rw [show mapInsert ((k', v') :: rest) k' v = (k', v) :: rest from by
            simp [mapInsert], List.map_cons, List.mem_cons] at h
        rcases h with h | h
        · exact Or.inl h
        · exact Or.inr (by rw [List.map_cons, List.mem_cons]; exact Or.inr h)
      · rw [show mapInsert ((k', v') :: rest) k v
            = (k', v') :: mapInsert rest k v from by simp [mapInsert, hk],
          List.map_cons, List.mem_cons] at h
        rcases h with h | h
        · exact Or.inr (by rw [List.map_cons, List.mem_cons]; exact Or.inl h)
        · rcases ih h with h' | h'
          · exact Or.inl h'
          · exact Or.inr (by rw [List.map_cons, List.mem_cons]; exact Or.inr h')

/-- `mapInsert` preserves duplicate-freedom of the registry keys. -/
theorem nodup_mapInsert {β : Type} {l : List (String × β)} {k : String} {v : β}
    (h : (l.map Prod.fst).Nodup) : ((mapInsert l k v).map Prod.fst).Nodup := by
  induction l with
  | nil => simp [mapInsert]
  | cons p rest ih =>
      obtain ⟨k', v'⟩ := p
      rw [List.map_cons, List.nodup_cons] at h
      by_cases hk : k' = k
      · subst hk
        simpa [mapInsert] using h
      · rw [show mapInsert ((k', v') :: rest) k v
            = (k', v') :: mapInsert rest k v by simp [mapInsert, hk]]
        rw [List.map_cons, List.nodup_cons]
        refine ⟨fun hc => ?_, ih h.2⟩
        rcases mem_map_fst_mapInsert hc with h' | h'
        · exact hk h'
        · exact h.1 h'

/-- Inserting an inactive menu does not increase the active count. -/
theorem countActive_mapInsert_le {l : List (String × Menu)} {k : String}
    {v : Menu} (hv : v.active = false) :
    countActive (mapInsert l k v) ≤ countActive l := by
  induction l with
  | nil => simp [mapInsert, countActive, List.filter_cons, hv]
  | cons p rest ih =>
      obtain ⟨k', v'⟩ := p
      by_cases hk : k' = k
      · subst hk
        rw [show mapInsert ((k', v') :: rest) k' v = (k', v) :: rest from by
            simp [mapInsert]]
        rw [countActive_cons, countActive_cons]
        simp only [hv]
        simp
      · rw [show mapInsert ((k', v') :: rest) k v
            = (k', v') :: mapInsert rest k v by simp [mapInsert, hk]]
        rw [countActive_cons, countActive_cons]
        exact Nat.add_le_add_left ih _

/-- Membership in `setActiveAt`: an entry either carries the written key and
flag value, or is an untouched original entry with a different key. -/
theorem mem_setActiveAt {l : List (String × Menu)} {k : String} {b : Bool}
    {q : String × Menu} (hq : q ∈ setActiveAt l k b) :
    (q.1 = k ∧ q.2.active = b) ∨ (q.1 ≠ k ∧ q ∈ l) := by
  induction l with
  | nil => cases hq
  | cons p rest ih =>
      obtain ⟨k', v⟩ := p
      by_cases hk : k' = k
      · subst hk
        rw [show setActiveAt ((k', v) :: rest) k' b
            = (k', { v with active := b }) :: setActiveAt rest k' b by
            simp [setActiveAt]] at hq
        rcases List.mem_cons.mp hq with h | h
        · subst h
          exact Or.inl ⟨rfl, rfl⟩
        · rcases ih h with h' | h'
          · exact Or.inl h'
          · exact Or.inr ⟨h'.1, List.mem_cons_of_mem _ h'.2⟩
      · rw [show setActiveAt ((k', v) :: rest) k b
            = (k', v) :: setActiveAt rest k b by simp [setActiveAt, hk]] at hq
        rcases List.mem_cons.mp hq with h | h
        · subst h
          exact Or.inr ⟨hk, List.mem_cons_self _ _⟩
        · rcases ih h with h' | h'
          · exact Or.inl h'
          · exact Or.inr ⟨h'.1, List.mem_cons_of_mem _ h'.2⟩

/-- After the deactivation half of a switch, no registry entry is active
(given the at-most-one-active invariant). -/
theorem deactivateCurrent_all_inactive {c : Console}
    (hone : countActive c.menus ≤ 1) :
    ∀ q ∈ deactivateCurrent c, q.2.active = false := by
  unfold deactivateCurrent
  split
  · rename_i p hfind
    intro q hq
    have hpa : p.2.active = true := by simpa using List.find?_some hfind
    have hpm : p ∈ c.menus := List.mem_of_find?_eq_some hfind
    rcases mem_setActiveAt hq with h | h
    · exact h.2
    · cases hqa : q.2.active
      · rfl
      · exfalso
        have : q = p := active_entry_unique hone h.2 hpm hqa hpa
        exact h.1 (by rw [this])
  · rename_i hfind
    split
    · intro q hq
      rcases mem_setActiveAt hq with h | h
      · exact h.2
      · exact find?_active_none hfind h.2
    · intro q hq
      exact find?_active_none hfind hq

/-- The registry keys are unchanged by the deactivation half of a switch. -/
theorem map_fst_deactivateCurrent (c : Console) :
    (deactivateCurrent c).map Prod.fst = c.menus.map Prod.fst := by
  unfold deactivateCurrent
  split
  · exact map_fst_setActiveAt _ _ _
  · split
    · exact map_fst_setActiveAt _ _ _
    · rfl

/-- Activating one key in an all-inactive registry with duplicate-free keys
yields at most one active entry. -/
theorem countActive_setActiveAt_true {l : List (String × Menu)}
    (hall : ∀ q ∈ l, q.2.active = false)
    (hnd : (l.map Prod.fst).Nodup) (k : String) :
    countActive (setActiveAt l k true) ≤ 1 := by
  induction l with
  | nil => simp [setActiveAt, countActive]
  | cons p rest ih =>
      obtain ⟨k', v⟩ := p
      rw [List.map_cons, List.nodup_cons] at hnd
      have hrest : ∀ q ∈ rest, q.2.active = false :=
        fun q hq => hall q (List.mem_cons_of_mem _ hq)
      by_cases hk : k' = k
      · subst hk
        rw [show setActiveAt ((k', v) :: rest) k' true
            = (k', { v with active := true }) :: setActiveAt rest k' true by
            simp [setActiveAt]]
        rw [setActiveAt_not_mem hnd.1, countActive_cons]
        simp [countActive_eq_zero hrest]
      · rw [show setActiveAt ((k', v) :: rest) k true
            = (k', v) :: setActiveAt rest k true by simp [setActiveAt, hk]]
        rw [countActive_cons,
          hall (k', v) (List.mem_cons_self _ _)]
        simpa using ih hrest hnd.2

/-- States reachable from session construction by any sequence of
menu-creation and menu-switch calls. -/
inductive Reachable : Console → Prop where
  | init (app : String) : Reachable (Console.New app)
  | create (c : Console) (name : String) :
      Reachable c → Reachable (c.NewMenu name).1
  | switch (c : Console) (name : String) :
      Reachable c → Reachable (c.SwitchMenu name)

/-- The machine invariant carried through the induction for C8: keys are
duplicate-free and at most one registry entry is active. -/
theorem reachable_inv {c : Console} (h : Reachable c) :
    (c.menus.map Prod.fst).Nodup ∧ countActive c.menus ≤ 1 := by
  induction h with
  | init app =>
      have hnew : Console.New app
          = { menus := [("", ⟨"", true, [], []⟩)],
              shell := { historySources := [] }, isExecuting := false } := rfl
      rw [hnew]
      exact ⟨by decide, by decide⟩
  | create c name _ ih =>
      exact ⟨nodup_mapInsert ih.1,
        Nat.le_trans (countActive_mapInsert_le rfl) ih.2⟩
  | switch c name _ ih =>
      cases hl : assocLookup c.menus name with
      | none =>
          rw [SwitchMenu_absent_noop c name hl]
          exact ih
      | some target =>
          rw [SwitchMenu_found_eq c name target hl]
          constructor
          · rw [map_fst_setActiveAt, map_fst_deactivateCurrent]
            exact ih.1
          · exact countActive_setActiveAt_true
              (deactivateCurrent_all_inactive ih.2)
              (by rw [map_fst_deactivateCurrent]; exact ih.1) name

/-- C8: in every state reachable from construction by create/switch calls,
at most one menu is active; `activeMenu` returns the menu that is active
when one exists, and falls back to the menu registered under the empty name
when none is active. -/
theorem reachable_active_invariant (c : Console) (h : Reachable c) :
    countActive c.menus ≤ 1
    ∧ (∀ k m, assocLookup c.menus k = some m → m.active = true →
        c.activeMenu = some m)
    ∧ ((∀ q ∈ c.menus, q.2.active = false) →
        c.activeMenu = assocLookup c.menus "") := by
  have hinv := reachable_inv h
  refine ⟨hinv.2, ?_, ?_⟩
  · intro k m hm hma
    have hmem : (k, m) ∈ c.menus := assocLookup_mem hm
    unfold Console.activeMenu
    split
    · rename_i p hfind
      have hpa : p.2.active = true := by simpa using List.find?_some hfind
      have hpm : p ∈ c.menus := List.mem_of_find?_eq_some hfind
      have hpq : p = (k, m) := active_entry_unique hinv.2 hpm hmem hpa hma
      rw [hpq]
    · rename_i hfind
      exfalso
      have := find?_active_none hfind hmem
      simp [hma] at this
  · intro hall
    unfold Console.activeMenu
    split
    · rename_i p hfind
      exfalso
      have hpa : p.2.active = true := by simpa using List.find?_some hfind
      have := hall p (List.mem_of_find?_eq_some hfind)
      simp [hpa] at this
    · rfl

/-- Witness for C8 on a concrete reachable state: construct, create "sub",
switch to "sub". -/
theorem reachable_active_invariant_witness :
    countActive (((Console.New "app").NewMenu "sub").1.SwitchMenu "sub").menus
      ≤ 1 :=
  (reachable_active_invariant _
    (Reachable.switch _ "sub" (Reachable.create _ "sub"
      (Reachable.init "app")))).1

/-! Guard-mode model for the concurrency discipline of src/console.go (C9). -/

/-- Acquisition modes of Go's `sync.RWMutex`: `RLock` takes the guard in
shared (read) mode, `Lock` in exclusive (write) mode. -/
inductive LockMode where
  | shared
  | exclusive
  deriving DecidableEq, Repr

/-- Whether two simultaneous acquisitions of one `sync.RWMutex` exclude one
another: two shared-mode holders coexist; any pairing that involves the
exclusive mode is mutually exclusive. -/
def LockMode.excludes : LockMode → LockMode → Bool
  | .shared, .shared => false
  | _, _ => true

/-- The operations of src/console.go that take the console's shared guard
`c.mutex` around their whole body. -/
inductive ConsoleOp where
  | newMenuOp
  | switchMenuOp
  | currentMenuOp
  | menuByNameOp
  | reloadConfigOp
  deriving DecidableEq, Repr

/-- The mode in which each operation acquires the guard, transcribed from
the source: `NewMenu` RLock (src/console.go:115), `SwitchMenu` RLock
(src/console.go:145), `CurrentMenu` Lock (src/console.go:126), `Menu` Lock
(src/console.go:134), `reloadConfig` RLock (src/console.go:190). -/
def lockModeOf : ConsoleOp → LockMode
  | .newMenuOp => .shared
  | .switchMenuOp => .shared
  | .currentMenuOp => .exclusive
  | .menuByNameOp => .exclusive
  | .reloadConfigOp => .shared

/-- Which operations read the current active menu (they call `activeMenu`
under the guard they hold). -/
def readsActiveMenu : ConsoleOp → Bool
  | .currentMenuOp => true
  | .reloadConfigOp => true
  | .switchMenuOp => true
  | _ => false

/-- C9 fails on the code: `SwitchMenu` takes the guard in shared mode
(RLock), and `reloadConfig` is a concurrent reader of the current active
menu that also takes shared mode, so the two are not mutually exclusive and
the multi-step switch sequence is not observably atomic to every concurrent
reader of the active menu. -/
theorem switchMenu_guard_not_atomic :
    lockModeOf .switchMenuOp = .shared
    ∧ readsActiveMenu .reloadConfigOp = true
    ∧ LockMode.excludes (lockModeOf .switchMenuOp) (lockModeOf .reloadConfigOp)
        = false
    ∧ ¬ (∀ op, readsActiveMenu op = true →
        LockMode.excludes (lockModeOf .switchMenuOp) (lockModeOf op) = true) := by
  refine ⟨rfl, rfl, rfl, fun hc => ?_⟩
  have h := hc .reloadConfigOp rfl
  simp [lockModeOf, LockMode.excludes] at h

/-! UTF-8 model for `SystemEditor`'s byte/rune conversions (C10). -/

/-- Whether a byte is a UTF-8 continuation byte (10xxxxxx). -/
def cont (b : Nat) : Bool :=
  decide (0x80 ≤ b) && decide (b < 0xC0)

/-- Accepted range of the second byte of a three-byte sequence, depending
on the leading byte (E0 excludes overlong encodings, ED excludes surrogate
code points), as in Go's unicode/utf8 accept ranges. -/
def acceptB2three (b1 b2 : Nat) : Bool :=
  if b1 = 0xE0 then decide (0xA0 ≤ b2) && decide (b2 < 0xC0)
  else if b1 = 0xED then decide (0x80 ≤ b2) && decide (b2 < 0xA0)
  else cont b2

/-- Accepted range of the second byte of a four-byte sequence, depending on
the leading byte (F0 excludes overlong encodings, F4 caps at U+10FFFF). -/
def acceptB2four (b1 b2 : Nat) : Bool :=
  if b1 = 0xF0 then decide (0x90 ≤ b2) && decide (b2 < 0xC0)
  else if b1 = 0xF4 then decide (0x80 ≤ b2) && decide (b2 < 0x90)
  else cont b2

/-- Go's `[]rune(string(bytes))` conversion: UTF-8 decoding where every
invalid step yields U+FFFD and consumes exactly one byte (the behaviour of
`utf8.DecodeRune`), and every valid 1-4 byte sequence yields its code
point. -/
def utf8DecodeGo : List Nat → List Nat
  | [] => []
  | b1 :: rest =>
    if b1 < 0x80 then b1 :: utf8DecodeGo rest
    else if b1 < 0xC2 then 0xFFFD :: utf8DecodeGo rest
    else if b1 < 0xE0 then
      match rest with
      | [] => [0xFFFD]
      | b2 :: rest2 =>
          if cont b2 then
            ((b1 - 0xC0) * 64 + (b2 - 0x80)) :: utf8DecodeGo rest2
          else 0xFFFD :: utf8DecodeGo (b2 :: rest2)
    else if b1 < 0xF0 then
      match rest with
      | [] => [0xFFFD]
      | b2 :: rest2 =>
          match rest2 with
          | [] => 0xFFFD :: utf8DecodeGo [b2]
          | b3 :: rest3 =>
              if acceptB2three b1 b2 && cont b3 then
                ((b1 - 0xE0) * 4096 + (b2 - 0x80) * 64 + (b3 - 0x80))
                  :: utf8DecodeGo rest3
              else 0xFFFD :: utf8DecodeGo (b2 :: b3 :: rest3)
    else if b1 < 0xF5 then
      match rest with
      | [] => [0xFFFD]
      | b2 :: rest2 =>
          match rest2 with
          | [] => 0xFFFD :: utf8DecodeGo [b2]
          | b3 :: rest3 =>
              match rest3 with
              | [] => 0xFFFD :: utf8DecodeGo [b2, b3]
              | b4 :: rest4 =>
                  if acceptB2four b1 b2 && cont b3 && cont b4 then
                    ((b1 - 0xF0) * 262144 + (b2 - 0x80) * 4096
                        + (b3 - 0x80) * 64 + (b4 - 0x80)) :: utf8DecodeGo rest4
                  else 0xFFFD :: utf8DecodeGo (b2 :: b3 :: b4 :: rest4)
    else 0xFFFD :: utf8DecodeGo rest

/-- Standard UTF-8 encoding of one code point (1-4 bytes by range). -/
def utf8EncodeChar (c : Nat) : List Nat :=
  if c < 0x80 then [c]
  else if c < 0x800 then [0xC0 + c / 64, 0x80 + c % 64]
  else if c < 0x10000 then
    [0xE0 + c / 4096, 0x80 + (c / 64) % 64, 0x80 + c % 64]
  else
    [0xF0 + c / 262144, 0x80 + (c / 4096) % 64, 0x80 + (c / 64) % 64,
      0x80 + c % 64]

/-- Whether a code point is a Unicode scalar value (in range and not a
surrogate); runes are modelled as naturals, Go's negative runes being out
of scope because decoding never produces them. -/
def isScalar (c : Nat) : Bool :=
  decide (c < 0xD800 ∨ (0xE000 ≤ c ∧ c < 0x110000))

/-- Go's `string(r)` for one rune: scalar values encode by UTF-8, anything
else (surrogates, out of range) encodes as U+FFFD. -/
def goEncodeRune (c : Nat) : List Nat :=
  if isScalar c then utf8EncodeChar c else utf8EncodeChar 0xFFFD

/-- Go's `[]byte(string(runes))` conversion: concatenated per-rune
encodings. -/
def goEncodeRunes (cs : List Nat) : List Nat :=
  (cs.map goEncodeRune).flatten

/-- A byte list is valid UTF-8 when it is the encoding of some sequence of
Unicode scalar values. -/
def validUTF8 (b : List Nat) : Prop :=
  ∃ cs : List Nat, (∀ c ∈ cs, isScalar c = true) ∧ goEncodeRunes cs = b

/-- Embedding of `(*Console).SystemEditor` (src/console.go:172-178): the
buffer is converted `[]byte → string → []rune`, handed to the shell's
`EditBuffer` collaborator (opaque, passed as a parameter) along with an
empty filename, the filetype, and the emacs flag from the shell's
`editing-mode` configuration value, and the returned rune buffer is
converted back `[]rune → string → []byte`. -/
def SystemEditor
    (editBuffer : List Nat → String → String → Bool → List Nat × Option GoError)
    (editingMode : String) (buffer : List Nat) (filetype : String) :
    List Nat × Option GoError :=
  let emacs := editingMode == "emacs"
  let edited := editBuffer (utf8DecodeGo buffer) "" filetype emacs
  (goEncodeRunes edited.1, edited.2)

/-- One decode step on an ASCII byte. -/
theorem utf8DecodeGo_one (b1 : Nat) (h : b1 < 0x80) (rest : List Nat) :
    utf8DecodeGo (b1 :: rest) = b1 :: utf8DecodeGo rest := by
  conv_lhs => rw [utf8DecodeGo.eq_def]
  simp only []
  rw [if_pos h]

/-- One decode step on a well-formed two-byte sequence. -/
theorem utf8DecodeGo_two (b1 b2 : Nat) (h1 : 0xC2 ≤ b1) (h2 : b1 < 0xE0)
    (hc : cont b2 = true) (rest : List Nat) :
    utf8DecodeGo (b1 :: b2 :: rest)
      = ((b1 - 0xC0) * 64 + (b2 - 0x80)) :: utf8DecodeGo rest := by
  conv_lhs => rw [utf8DecodeGo.eq_def]
  simp only []
  rw [if_neg (by omega), if_neg (by omega), if_pos (by omega), if_pos hc]

/-- One decode step on a well-formed three-byte sequence. -/
theorem utf8DecodeGo_three (b1 b2 b3 : Nat) (h1 : 0xE0 ≤ b1) (h2 : b1 < 0xF0)
    (hacc : acceptB2three b1 b2 = true) (hc3 : cont b3 = true)
    (rest : List Nat) :
    utf8DecodeGo (b1 :: b2 :: b3 :: rest)
      = ((b1 - 0xE0) * 4096 + (b2 - 0x80) * 64 + (b3 - 0x80))
          :: utf8DecodeGo rest := by
  conv_lhs => rw [utf8DecodeGo.eq_def]
  simp only []
  rw [if_neg (by omega), if_neg (by omega), if_neg (by omega),
    if_pos (by omega),
    if_pos (show (acceptB2three b1 b2 && cont b3) = true from by
      simp [hacc, hc3])]

/-- One decode step on a well-formed four-byte sequence. -/
theorem utf8DecodeGo_four (b1 b2 b3 b4 : Nat) (h1 : 0xF0 ≤ b1) (h2 : b1 < 0xF5)
    (hacc : acceptB2four b1 b2 = true) (hc3 : cont b3 = true)
    (hc4 : cont b4 = true) (rest : List Nat) :
    utf8DecodeGo (b1 :: b2 :: b3 :: b4 :: rest)
      = ((b1 - 0xF0) * 262144 + (b2 - 0x80) * 4096 + (b3 - 0x80) * 64
          + (b4 - 0x80)) :: utf8DecodeGo rest := by
  conv_lhs => rw [utf8DecodeGo.eq_def]
  simp only []
  rw [if_neg (by omega), if_neg (by omega), if_neg (by omega),
    if_neg (by omega), if_pos (by omega),
    if_pos (show (acceptB2four b1 b2 && cont b3 && cont b4) = true from by
      simp [hacc, hc3, hc4])]

/-- Decoding the encoding of one scalar value consumes exactly its bytes. -/
theorem utf8DecodeGo_encodeChar_append (c : Nat) (h : isScalar c = true)
    (rest : List Nat) :
    utf8DecodeGo (utf8EncodeChar c ++ rest) = c :: utf8DecodeGo rest := by
  have hs : c < 0xD800 ∨ (0xE000 ≤ c ∧ c < 0x110000) := by
    simpa [isScalar] using h
  by_cases h1 : c < 0x80
  · rw [show utf8EncodeChar c = [c] from by simp [utf8EncodeChar, h1]]
    simp only [List.cons_append, List.nil_append]
    exact utf8DecodeGo_one c h1 rest
  · by_cases h2 : c < 0x800
    · rw [show utf8EncodeChar c = [0xC0 + c / 64, 0x80 + c % 64] from by
          simp [utf8EncodeChar, h1, h2]]
      simp only [List.cons_append, List.nil_append]
      rw [utf8DecodeGo_two _ _ (by omega) (by omega)
        (by simp [cont]; omega) rest]
      rw [show (0xC0 + c / 64 - 0xC0) * 64 + (0x80 + c % 64 - 0x80) = c from by
        omega]
    · by_cases h3 : c < 0x10000
      · rw [show utf8EncodeChar c
            = [0xE0 + c / 4096, 0x80 + (c / 64) % 64, 0x80 + c % 64] from by
            simp [utf8EncodeChar, h1, h2, h3]]
        simp only [List.cons_append, List.nil_append]
        have hacc : acceptB2three (0xE0 + c / 4096) (0x80 + (c / 64) % 64)
            = true := by
          rw [acceptB2three]
          split_ifs with hE0 hED
          · simp [cont]
            omega
          · simp [cont]
            omega
          · simp [cont]
            omega
        rw [utf8DecodeGo_three _ _ _ (by omega) (by omega) hacc
          (by simp [cont]; omega) rest]
        rw [show (0xE0 + c / 4096 - 0xE0) * 4096
            + (0x80 + (c / 64) % 64 - 0x80) * 64 + (0x80 + c % 64 - 0x80)
            = c from by omega]
      · rw [show utf8EncodeChar c
            = [0xF0 + c / 262144, 0x80 + (c / 4096) % 64, 0x80 + (c / 64) % 64,
                0x80 + c % 64] from by simp [utf8EncodeChar, h1, h2, h3]]
        simp only [List.cons_append, List.nil_append]
        have hacc : acceptB2four (0xF0 + c / 262144) (0x80 + (c / 4096) % 64)
            = true := by
          rw [acceptB2four]
          split_ifs with hF0 hF4
          · simp [cont]
            omega
          · simp [cont]
            omega
          · simp [cont]
            omega
        rw [utf8DecodeGo_four _ _ _ _ (by omega) (by omega) hacc
          (by simp [cont]; omega) (by simp [cont]; omega) rest]
        rw [show (0xF0 + c / 262144 - 0xF0) * 262144
            + (0x80 + (c / 4096) % 64 - 0x80) * 4096
            + (0x80 + (c / 64) % 64 - 0x80) * 64 + (0x80 + c % 64 - 0x80)
            = c from by omega]

/-- Decoding round-trips on the encoding of any scalar-value sequence. -/
theorem utf8DecodeGo_goEncodeRunes (cs : List Nat)
    (h : ∀ c ∈ cs, isScalar c = true) :
    utf8DecodeGo (goEncodeRunes cs) = cs := by
  induction cs with
  | nil => rfl
  | cons c rest ih =>
      have hc : isScalar c = true := h c (List.mem_cons_self c rest)
      rw [show goEncodeRunes (c :: rest)
          = goEncodeRune c ++ goEncodeRunes rest from by
          simp [goEncodeRunes]]
      rw [show goEncodeRune c = utf8EncodeChar c from by
          simp [goEncodeRune, hc]]
      rw [utf8DecodeGo_encodeChar_append c hc,
        ih fun x hx => h x (List.mem_cons_of_mem c hx)]

/-- C10: for a valid-UTF-8 input buffer, if the underlying editor returns
its rune buffer unchanged, `SystemEditor` returns a byte buffer equal to
the input: the byte-to-rune-to-byte conversion round-trips. -/
theorem SystemEditor_roundtrip
    (editBuffer : List Nat → String → String → Bool → List Nat × Option GoError)
    (editingMode filetype : String) (buffer : List Nat)
    (hvalid : validUTF8 buffer)
    (hid : ∀ rs f t e, (editBuffer rs f t e).1 = rs) :
    (SystemEditor editBuffer editingMode buffer filetype).1 = buffer := by
  obtain ⟨cs, hcs, henc⟩ := hvalid
  simp only [SystemEditor]
  rw [hid]
  rw [← henc, utf8DecodeGo_goEncodeRunes cs hcs]

/-- Witness for C10 on the two-code-point buffer "a, e-acute" with an
identity editor. -/
theorem SystemEditor_roundtrip_witness :
    validUTF8 [0x61, 0xC3, 0xA9]
    ∧ (SystemEditor (fun rs _ _ _ => (rs, none)) "emacs" [0x61, 0xC3, 0xA9]
        "txt").1 = [0x61, 0xC3, 0xA9] :=
  ⟨⟨[0x61, 0xE9], by decide, by decide⟩,
    SystemEditor_roundtrip (fun rs _ _ _ => (rs, none)) "emacs" "txt"
      [0x61, 0xC3, 0xA9] ⟨[0x61, 0xE9], by decide, by decide⟩
      (fun _ _ _ _ => rfl)⟩
